import Mathlib

/-!
Verification of the pour-over coffee timer's phase state machine and
wall-clock countdown engine (main application module).

Times are modelled in milliseconds as rationals, so that the source's
division `elapsed / 1000` is exact.  The source stores `phaseStartTime`
and `phaseDuration` as `null` until first set; JavaScript coerces `null`
to `0` in arithmetic, which we mirror with `Option ℚ` and `Option.getD 0`.
Durations in seconds are rationals as well (persisted settings may carry
non-integer numbers before clamping).
-/

/-- The three brewing phases of the timer. -/
inductive Phase where
  | bloom
  | pour
  | wait
deriving DecidableEq, Repr

/-- Per-phase durations in seconds, mirroring `state.settings`. -/
structure Settings where
  bloom : ℚ
  pour : ℚ
  wait : ℚ
deriving DecidableEq, Repr

/-- Dynamic lookup `state.settings[phase]`. -/
def Settings.get (s : Settings) : Phase → ℚ
  | Phase.bloom => s.bloom
  | Phase.pour => s.pour
  | Phase.wait => s.wait

/-- Dynamic update `state.settings[phase] = v`. -/
def Settings.set (s : Settings) : Phase → ℚ → Settings
  | Phase.bloom, v => { s with bloom := v }
  | Phase.pour, v => { s with pour := v }
  | Phase.wait, v => { s with wait := v }

/-- The mutable module state of the application: settings, current phase,
remaining seconds, the running and paused flags, whether the polling
interval is installed (`intervalId !== null`), the wall-clock instant the
current phase started, and the snapshot of the current phase's duration. -/
structure TimerState where
  settings : Settings
  currentPhase : Phase
  secondsRemaining : ℚ
  isRunning : Bool
  isPaused : Bool
  intervalActive : Bool
  phaseStartTime : Option ℚ
  phaseDuration : Option ℚ
deriving DecidableEq, Repr

/-- The initial module state: default settings `bloom=40, pour=5, wait=10`,
phase `bloom`, 40 seconds remaining, not running, interval and time/duration
fields `null`. -/
def initState : TimerState :=
  { settings := { bloom := 40, pour := 5, wait := 10 }
    currentPhase := Phase.bloom
    secondsRemaining := 40
    isRunning := false
    isPaused := false
    intervalActive := false
    phaseStartTime := none
    phaseDuration := none }

/-- The source's `clamp(val, min, max) = Math.max(min, Math.min(max, val))`. -/
def clamp (val lo hi : ℚ) : ℚ :=
  max lo (min hi val)

/-- The source's `startTimer`, at wall-clock time `now` (ms).  No-op when
running and not paused; on a fresh start resets to the bloom phase with the
bloom duration; on resume just clears the paused flag; either way recomputes
`phaseStartTime = now - (phaseDuration - secondsRemaining) * 1000` and
installs the polling interval. -/
def startTimer (now : ℚ) (s : TimerState) : TimerState :=
  if s.isRunning && !s.isPaused then s
  else
    let s1 :=
      if !s.isRunning then
        { s with currentPhase := Phase.bloom
                 secondsRemaining := s.settings.bloom
                 phaseDuration := some s.settings.bloom
                 isRunning := true
                 isPaused := false }
      else
        { s with isPaused := false }
    { s1 with
        phaseStartTime :=
          some (now - (s1.phaseDuration.getD 0 - s1.secondsRemaining) * 1000)
        intervalActive := true }

/-- The source's `pauseTimer`: no-op unless running and not paused; sets the
paused flag and clears the polling interval. -/
def pauseTimer (s : TimerState) : TimerState :=
  if !s.isRunning || s.isPaused then s
  else
    { s with isPaused := true, intervalActive := false }

/-- The source's `stopTimer`: clears the running and paused flags and the
interval, resets the phase to bloom and the remaining seconds to the bloom
setting.  It does not touch `phaseStartTime` or `phaseDuration`. -/
def stopTimer (s : TimerState) : TimerState :=
  { s with isRunning := false
           isPaused := false
           intervalActive := false
           currentPhase := Phase.bloom
           secondsRemaining := s.settings.bloom }

/-- The source's `advancePhase`, at wall-clock time `now` (ms): maps
bloom to pour, pour to wait, and anything else (here: wait) to pour; the
new phase's duration is read from the settings, the remaining seconds are
reset to it, and `phaseStartTime` is set to `now`. -/
def advancePhase (now : ℚ) (s : TimerState) : TimerState :=
  let nextPhase :=
    if s.currentPhase = Phase.bloom then Phase.pour
    else if s.currentPhase = Phase.pour then Phase.wait
    else Phase.pour
  { s with currentPhase := nextPhase
           phaseDuration := some (s.settings.get nextPhase)
           secondsRemaining := s.settings.get nextPhase
           phaseStartTime := some now }

/-- The source's `tick`, at wall-clock time `now` (ms): no-op if paused;
otherwise recomputes `secondsRemaining = max 0 (phaseDuration - (now -
phaseStartTime) / 1000)` and, when that reaches zero, invokes
`advancePhase`. -/
def tick (now : ℚ) (s : TimerState) : TimerState :=
  if s.isPaused then s
  else
    let elapsed := (now - s.phaseStartTime.getD 0) / 1000
    let s1 := { s with secondsRemaining := max 0 (s.phaseDuration.getD 0 - elapsed) }
    if s1.secondsRemaining ≤ 0 then advancePhase now s1 else s1

/-- The value of `parseInt(value) || 1`: `none` models a `NaN` parse, and a
parsed `0` is falsy in JavaScript, so both fall back to `1`; every other
integer (negative included) is kept. -/
def parsedInput (value : Option ℤ) : ℚ :=
  match value with
  | none => 1
  | some n => if n = 0 then 1 else (n : ℚ)

/-- The source's `handleSettingChange`: the raw input goes through
`parseInt(value) || 1`, is clamped into `[1, 300]` and stored.  When the
timer is not running, the displayed remaining seconds are refreshed from
the (possibly new) duration of the current phase. -/
def handleSettingChange (phase : Phase) (value : Option ℤ) (s : TimerState) :
    TimerState :=
  let num := clamp (parsedInput value) 1 300
  let s1 := { s with settings := s.settings.set phase num }
  if !s1.isRunning then
    { s1 with secondsRemaining := s1.settings.get s1.currentPhase }
  else s1

/-- A persisted settings record as parsed from storage: each field may be
absent (`undefined`/`null` in the source, both falsy). -/
structure RawSettings where
  bloom : Option ℚ
  pour : Option ℚ
  wait : Option ℚ
deriving DecidableEq, Repr

/-- JavaScript `x || d` for an optional numeric field: missing and `0` are
falsy and yield the default; every other number (negative included) is
kept. -/
def orDefault (x : Option ℚ) (d : ℚ) : ℚ :=
  match x with
  | none => d
  | some v => if v = 0 then d else v

/-- The source's `loadSettings`.  `saved = none` models both an absent
record and an unparsable one (the `catch` branch): the current (default)
settings are kept.  Otherwise each field goes through `parsed.f || default`
and `clamp` into `[1, 300]`.  Finally the remaining seconds are refreshed
from the bloom setting.  No failure is ever surfaced. -/
def loadSettings (saved : Option RawSettings) (s : TimerState) : TimerState :=
  let s1 :=
    match saved with
    | none => s
    | some parsed =>
        { s with settings :=
            { bloom := clamp (orDefault parsed.bloom 40) 1 300
              pour := clamp (orDefault parsed.pour 5) 1 300
              wait := clamp (orDefault parsed.wait 10) 1 300 } }
  { s1 with secondsRemaining := s1.settings.bloom }

/-- The externally triggerable events of the engine.  `start` covers both
fresh start and resume; `tickEv` and `advanceEv` carry the wall-clock time
at which the polling callback fires. -/
inductive Op where
  | start (now : ℚ)
  | tickEv (now : ℚ)
  | advanceEv (now : ℚ)
  | pause
  | stop
  | setDuration (phase : Phase) (value : Option ℤ)
deriving DecidableEq, Repr

/-- Applying one event to the state. -/
def applyOp : Op → TimerState → TimerState
  | Op.start now, s => startTimer now s
  | Op.tickEv now, s => tick now s
  | Op.advanceEv now, s => advancePhase now s
  | Op.pause, s => pauseTimer s
  | Op.stop, s => stopTimer s
  | Op.setDuration p v, s => handleSettingChange p v s

/-- Reachability of a state at a wall-clock instant: ticks can fire only
while the polling interval is installed, phase advance only from within a
live tick, and wall-clock time never decreases between events.  User events
(`start`, `pause`, `stop`, setting changes) may occur at any time. -/
inductive Reachable : TimerState → ℚ → Prop where
  | init : Reachable initState 0
  | step_start {s : TimerState} {T now : ℚ} :
      Reachable s T → T ≤ now → Reachable (startTimer now s) now
  | step_tick {s : TimerState} {T now : ℚ} :
      Reachable s T → T ≤ now → s.intervalActive = true →
      Reachable (tick now s) now
  | step_advance {s : TimerState} {T now : ℚ} :
      Reachable s T → T ≤ now → s.intervalActive = true →
      Reachable (advancePhase now s) now
  | step_pause {s : TimerState} {T : ℚ} :
      Reachable s T → Reachable (pauseTimer s) T
  | step_stop {s : TimerState} {T : ℚ} :
      Reachable s T → Reachable (stopTimer s) T
  | step_set {s : TimerState} {T : ℚ} (phase : Phase) (value : Option ℤ) :
      Reachable s T → Reachable (handleSettingChange phase value s) T

/-- Running `tick` at each time of a list in order, oldest first. -/
def runTicks (times : List ℚ) (s : TimerState) : TimerState :=
  times.foldl (fun st t => tick t st) s

/-- Absolute tick times induced by a start instant and a list of
inter-tick delays (the jitter schedule). -/
def tickTimes (start : ℚ) (delays : List ℚ) : List ℚ :=
  match delays with
  | [] => []
  | d :: ds => (start + d) :: tickTimes (start + d) ds

/-- A tick schedule stays inside the current phase: every tick of the list
leaves a strictly positive remaining time, so none of them triggers a phase
advance. -/
def NoAdvance : List ℚ → TimerState → Prop
  | [], _ => True
  | t :: ts, s =>
      0 < max 0 (s.phaseDuration.getD 0 - (t - s.phaseStartTime.getD 0) / 1000) ∧
        NoAdvance ts (tick t s)

instance instDecidableNoAdvance :
    (ts : List ℚ) → (s : TimerState) → Decidable (NoAdvance ts s)
  | [], _ => Decidable.isTrue trivial
  | _ :: ts, s => @instDecidableAnd _ _ _ (instDecidableNoAdvance ts (tick _ s))

/-- The remaining time the spec prescribes for a non-paused tick at instant
`now`: the phase duration less the elapsed wall-clock seconds since the
phase started, floored at zero. -/
def wallRemaining (now : ℚ) (s : TimerState) : ℚ :=
  max 0 (s.phaseDuration.getD 0 - (now - s.phaseStartTime.getD 0) / 1000)

/-- The per-phase default durations of the persisted-settings loader. -/
def defaultFor : Phase → ℚ
  | Phase.bloom => 40
  | Phase.pour => 5
  | Phase.wait => 10

/-- Field lookup on a raw persisted record. -/
def RawSettings.get (r : RawSettings) : Phase → Option ℚ
  | Phase.bloom => r.bloom
  | Phase.pour => r.pour
  | Phase.wait => r.wait

/-- The inductive invariant of the engine: settings stay at least 1 second,
the remaining time is never negative, a running state has a positive phase
duration bounding the remaining time, and a live polling interval implies
running, unpaused, and a phase start that does not lie in the future. -/
def EngineInv (s : TimerState) (T : ℚ) : Prop :=
  (1 ≤ s.settings.bloom ∧ 1 ≤ s.settings.pour ∧ 1 ≤ s.settings.wait) ∧
  0 ≤ s.secondsRemaining ∧
  (s.isRunning = true →
    ∃ d, s.phaseDuration = some d ∧ 0 < d ∧ s.secondsRemaining ≤ d) ∧
  (s.intervalActive = true →
    s.isRunning = true ∧ s.isPaused = false ∧
    ∃ t0, s.phaseStartTime = some t0 ∧ t0 ≤ T)

lemma Settings.get_set_self (st : Settings) (p : Phase) (v : ℚ) :
    (st.set p v).get p = v := by
  cases p <;> rfl

lemma startTimer_init_eval :
    startTimer 0 initState =
      { settings := { bloom := 40, pour := 5, wait := 10 }
        currentPhase := Phase.bloom
        secondsRemaining := 40
        isRunning := true
        isPaused := false
        intervalActive := true
        phaseStartTime := some 0
        phaseDuration := some 40 } := by
  norm_num [startTimer, initState]

lemma tick_40000_eval :
    tick 40000 (startTimer 0 initState) =
      { settings := { bloom := 40, pour := 5, wait := 10 }
        currentPhase := Phase.pour
        secondsRemaining := 5
        isRunning := true
        isPaused := false
        intervalActive := true
        phaseStartTime := some 40000
        phaseDuration := some 5 } := by
  rw [startTimer_init_eval]
  norm_num [tick, advancePhase, max_def, Settings.get]

lemma handleSettingChange_settings (p : Phase) (v : Option ℤ) (s : TimerState) :
    (handleSettingChange p v s).settings =
      s.settings.set p (clamp (parsedInput v) 1 300) := by
  by_cases h : s.isRunning = true <;> simp [handleSettingChange, h]

lemma handleSettingChange_running (p : Phase) (v : Option ℤ) (s : TimerState)
    (hr : s.isRunning = true) :
    handleSettingChange p v s =
      { s with settings := s.settings.set p (clamp (parsedInput v) 1 300) } := by
  simp [handleSettingChange, hr]

lemma handleSettingChange_idle (p : Phase) (v : Option ℤ) (s : TimerState)
    (hr : s.isRunning = false) :
    handleSettingChange p v s =
      { s with settings := s.settings.set p (clamp (parsedInput v) 1 300)
               secondsRemaining :=
                 (s.settings.set p (clamp (parsedInput v) 1 300)).get
                   s.currentPhase } := by
  simp [handleSettingChange, hr]

/-- C1: for every non-paused tick, the engine recomputes `secondsRemaining`
as `max 0 (phaseDuration - (now - phaseStartTime) / 1000)` from absolute
wall-clock time — independently of the previous `secondsRemaining`, hence
never by per-tick decrement — and invokes `advancePhase` exactly when this
recomputed remaining reaches 0; when `isPaused` is true, `tick` leaves the
state unchanged. -/
theorem tick_recomputes_from_wall_clock (now : ℚ) (s : TimerState) :
    (s.isPaused = true → tick now s = s) ∧
    (s.isPaused = false → ∀ r : ℚ,
      (wallRemaining now s = 0 →
        tick now { s with secondsRemaining := r } =
          advancePhase now { s with secondsRemaining := 0 }) ∧
      (wallRemaining now s ≠ 0 →
        tick now { s with secondsRemaining := r } =
          { s with secondsRemaining := wallRemaining now s })) := by
  constructor
  · intro h
    simp [tick, h]
  · intro h r
    have hmax : (0 : ℚ) ≤ wallRemaining now s := le_max_left _ _
    constructor
    · intro h0
      have hle :
          max 0 (s.phaseDuration.getD 0 - (now - s.phaseStartTime.getD 0) / 1000)
            ≤ 0 := le_of_eq h0
      simp [tick, h, hle, wallRemaining] at *
      simp [h0]
    · intro h0
      have hpos : (0 : ℚ) <
          max 0 (s.phaseDuration.getD 0 - (now - s.phaseStartTime.getD 0) / 1000) :=
        lt_of_le_of_ne hmax (Ne.symm h0)
      simp [tick, h, not_le.mpr hpos, wallRemaining]

/-- Witness for C1 at a concrete input: one second into a fresh default
run, a tick recomputes 39 seconds remaining whatever the stored value was. -/
theorem tick_recomputes_from_wall_clock_witness :
    tick 1000 { startTimer 0 initState with secondsRemaining := 7 } =
      { startTimer 0 initState with secondsRemaining := 39 } := by
  have hw : wallRemaining 1000 (startTimer 0 initState) = 39 := by
    rw [startTimer_init_eval]
    norm_num [wallRemaining]
  have h :=
    ((tick_recomputes_from_wall_clock 1000 (startTimer 0 initState)).2
      (by rw [startTimer_init_eval]) 7).2 (by rw [hw]; norm_num)
  rw [h, hw]

/-- C3: pausing a running, unpaused state freezes `secondsRemaining`, and
resuming at an arbitrary later instant `t` leaves it unchanged, with
`phaseStartTime` recomputed as `t - (phaseDuration - secondsRemaining) *
1000`, so no time is lost or gained across the pause. -/
theorem pause_resume_preserves_remaining (s : TimerState) (t : ℚ)
    (hrun : s.isRunning = true) (hp : s.isPaused = false) :
    (pauseTimer s).secondsRemaining = s.secondsRemaining ∧
    (startTimer t (pauseTimer s)).secondsRemaining = s.secondsRemaining ∧
    (startTimer t (pauseTimer s)).phaseStartTime =
      some (t - (s.phaseDuration.getD 0 - s.secondsRemaining) * 1000) := by
  simp [pauseTimer, startTimer, hrun, hp]

/-- Witness for C3: pause a fresh default run mid-bloom and resume 9999 ms
later; the remaining 40 seconds are unchanged and the phase start is
back-dated by the full bloom duration. -/
theorem pause_resume_preserves_remaining_witness :
    (startTimer 9999 (pauseTimer (startTimer 0 initState))).secondsRemaining =
      (startTimer 0 initState).secondsRemaining ∧
    (startTimer 9999 (pauseTimer (startTimer 0 initState))).phaseStartTime =
      some 9999 := by
  have h := pause_resume_preserves_remaining (startTimer 0 initState) 9999
    (by rw [startTimer_init_eval]) (by rw [startTimer_init_eval])
  refine ⟨h.2.1, ?_⟩
  rw [h.2.2, startTimer_init_eval]
  norm_num

/-- C4: from any state, `stopTimer` yields phase bloom, remaining equal to
the bloom setting, running and paused both false, and it is idempotent. -/
theorem stop_resets_and_idempotent (s : TimerState) :
    (stopTimer s).currentPhase = Phase.bloom ∧
    (stopTimer s).secondsRemaining = s.settings.bloom ∧
    (stopTimer s).isRunning = false ∧
    (stopTimer s).isPaused = false ∧
    stopTimer (stopTimer s) = stopTimer s := by
  simp [stopTimer]

/-- C5: for every phase and every input, the stored duration after
`handleSettingChange` is `clamp v 1 300` when the input parses to the
integer `v`, and `1` when it does not parse. -/
theorem setting_change_clamps (p : Phase) (v : Option ℤ) (s : TimerState) :
    (handleSettingChange p v s).settings.get p =
      match v with
      | some n => clamp (n : ℚ) 1 300
      | none => 1 := by
  rw [handleSettingChange_settings, Settings.get_set_self]
  cases v with
  | none => norm_num [parsedInput, clamp, max_def, min_def]
  | some n =>
      by_cases h : n = 0
      · subst h
        norm_num [parsedInput, clamp, max_def, min_def]
      · simp [parsedInput, h]

/-- C9: calling `startTimer` while running and not paused, or `pauseTimer`
while not running or already paused, leaves every field of the state
unchanged (the whole record is equal); no error is raised since the
operations are total. -/
theorem inapplicable_calls_are_noops (s : TimerState) (t : ℚ) :
    (s.isRunning = true → s.isPaused = false → startTimer t s = s) ∧
    (s.isRunning = false ∨ s.isPaused = true → pauseTimer s = s) := by
  constructor
  · intro h1 h2
    simp [startTimer, h1, h2]
  · intro h
    rcases h with h | h <;> simp [pauseTimer, h]

/-- Witness for C9: starting an already-running fresh run and pausing the
idle initial state are both exact no-ops. -/
theorem inapplicable_calls_are_noops_witness :
    startTimer 5 (startTimer 0 initState) = startTimer 0 initState ∧
    pauseTimer initState = initState :=
  ⟨(inapplicable_calls_are_noops (startTimer 0 initState) 5).1
      (by rw [startTimer_init_eval]) (by rw [startTimer_init_eval]),
    (inapplicable_calls_are_noops initState 5).2 (Or.inl rfl)⟩

/-- C10: `stopTimer` never touches `phaseDuration` while resetting
`secondsRemaining` to the bloom setting; concretely, stopping a default run
that has advanced into the pour phase leaves `phaseDuration = some 5`,
different from the bloom setting 40 that `secondsRemaining` is reset to. -/
theorem stop_preserves_phase_duration (s : TimerState) :
    ((stopTimer s).phaseDuration = s.phaseDuration ∧
      (stopTimer s).secondsRemaining = s.settings.bloom) ∧
    ((stopTimer (tick 40000 (startTimer 0 initState))).phaseDuration =
        some 5 ∧
      (stopTimer (tick 40000 (startTimer 0 initState))).phaseDuration ≠
        some ((stopTimer (tick 40000 (startTimer 0 initState))).settings.bloom)) := by
  refine ⟨⟨rfl, rfl⟩, ?_, ?_⟩
  · rw [tick_40000_eval]
    rfl
  · rw [tick_40000_eval]
    norm_num [stopTimer]

lemma tick_eq (now : ℚ) (s : TimerState) :
    tick now s =
      if s.isPaused then s
      else if wallRemaining now s ≤ 0 then
        advancePhase now { s with secondsRemaining := wallRemaining now s }
      else { s with secondsRemaining := wallRemaining now s } := rfl

lemma advancePhase_isRunning (now : ℚ) (s : TimerState) :
    (advancePhase now s).isRunning = s.isRunning := rfl

lemma advancePhase_isPaused (now : ℚ) (s : TimerState) :
    (advancePhase now s).isPaused = s.isPaused := rfl

lemma advancePhase_ne_bloom (now : ℚ) (s : TimerState) :
    (advancePhase now s).currentPhase ≠ Phase.bloom := by
  cases h : s.currentPhase <;> simp [advancePhase, h]

/-- C2: `advancePhase` maps bloom to pour, pour to wait, and wait back to
pour; moreover every operation other than `stopTimer` preserves the
property of being running with a non-bloom current phase, so once the run
has left bloom the phase cycles between pour and wait and is never bloom
again until stop is called. -/
theorem phase_advance_cycle (now : ℚ) (s : TimerState) :
    ((advancePhase now s).currentPhase =
      match s.currentPhase with
      | Phase.bloom => Phase.pour
      | Phase.pour => Phase.wait
      | Phase.wait => Phase.pour) ∧
    (∀ op : Op, op ≠ Op.stop → s.isRunning = true →
      s.currentPhase ≠ Phase.bloom →
      (applyOp op s).isRunning = true ∧
      (applyOp op s).currentPhase ≠ Phase.bloom) := by
  constructor
  · cases h : s.currentPhase <;> simp [advancePhase, h]
  · intro op hop h1 h2
    cases op with
    | start t =>
        by_cases hp : s.isPaused <;>
          simp [applyOp, startTimer, h1, hp, h2]
    | tickEv t =>
        show (tick t s).isRunning = true ∧ (tick t s).currentPhase ≠ Phase.bloom
        rw [tick_eq]
        by_cases hp : s.isPaused
        · simp [hp, h1, h2]
        · by_cases hz : wallRemaining t s ≤ 0
          · simp only [hp, hz, if_true, if_false, Bool.false_eq_true]
            refine ⟨?_, advancePhase_ne_bloom t _⟩
            rw [advancePhase_isRunning]
            exact h1
          · simp [hp, hz, h1, h2]
    | advanceEv t =>
        exact ⟨by rw [applyOp, advancePhase_isRunning]; exact h1,
          by rw [applyOp]; exact advancePhase_ne_bloom t s⟩
    | pause =>
        by_cases hp : s.isPaused <;>
          simp [applyOp, pauseTimer, h1, hp, h2]
    | stop => exact absurd rfl hop
    | setDuration p v =>
        simp [applyOp, handleSettingChange, h1, h2]

/-- Witness for C2: pausing a default run that has advanced into the pour
phase keeps it running and out of bloom. -/
theorem phase_advance_cycle_witness :
    (applyOp Op.pause (tick 40000 (startTimer 0 initState))).isRunning = true ∧
    (applyOp Op.pause (tick 40000 (startTimer 0 initState))).currentPhase ≠
      Phase.bloom :=
  (phase_advance_cycle 0 (tick 40000 (startTimer 0 initState))).2 Op.pause
    (by decide) (by rw [tick_40000_eval]) (by rw [tick_40000_eval]; decide)

lemma one_le_get (st : Settings)
    (h : 1 ≤ st.bloom ∧ 1 ≤ st.pour ∧ 1 ≤ st.wait) (p : Phase) :
    1 ≤ st.get p := by
  cases p
  · exact h.1
  · exact h.2.1
  · exact h.2.2

lemma settings_set_bounds (st : Settings) (p : Phase) (v : ℚ)
    (h : 1 ≤ st.bloom ∧ 1 ≤ st.pour ∧ 1 ≤ st.wait) (hv : 1 ≤ v) :
    1 ≤ (st.set p v).bloom ∧ 1 ≤ (st.set p v).pour ∧ 1 ≤ (st.set p v).wait := by
  cases p
  · exact ⟨hv, h.2.1, h.2.2⟩
  · exact ⟨h.1, hv, h.2.2⟩
  · exact ⟨h.1, h.2.1, hv⟩

lemma startTimer_resume (now : ℚ) (s : TimerState)
    (hr : s.isRunning = true) (hp : s.isPaused = true) :
    startTimer now s =
      { s with isPaused := false
               phaseStartTime :=
                 some (now - (s.phaseDuration.getD 0 - s.secondsRemaining) * 1000)
               intervalActive := true } := by
  simp [startTimer, hr, hp]

lemma startTimer_fresh (now : ℚ) (s : TimerState) (hr : s.isRunning = false) :
    startTimer now s =
      { s with currentPhase := Phase.bloom
               secondsRemaining := s.settings.bloom
               phaseDuration := some s.settings.bloom
               isRunning := true
               isPaused := false
               phaseStartTime :=
                 some (now - (s.settings.bloom - s.settings.bloom) * 1000)
               intervalActive := true } := by
  simp [startTimer, hr]

lemma inv_init : EngineInv initState 0 := by
  refine ⟨⟨by norm_num [initState], by norm_num [initState], by norm_num [initState]⟩,
    by norm_num [initState], ?_, ?_⟩
  · intro hr
    exact absurd hr (by simp [initState])
  · intro hi
    exact absurd hi (by simp [initState])

lemma inv_start (now T : ℚ) (s : TimerState) (h : EngineInv s T) (hT : T ≤ now) :
    EngineInv (startTimer now s) now := by
  obtain ⟨hset, hsr, hrun, hint⟩ := h
  by_cases hr : s.isRunning = true
  · by_cases hp : s.isPaused = true
    · obtain ⟨d, hd, hdpos, hsd⟩ := hrun hr
      rw [startTimer_resume now s hr hp]
      have ht0 : now - (s.phaseDuration.getD 0 - s.secondsRemaining) * 1000 ≤ now := by
        rw [hd]
        have : (0:ℚ) ≤ (d - s.secondsRemaining) * 1000 :=
          mul_nonneg (by linarith) (by norm_num)
        simp only [Option.getD_some]
        linarith
      exact ⟨hset, hsr, fun _ => ⟨d, hd, hdpos, hsd⟩,
        fun _ => ⟨hr, rfl, _, rfl, ht0⟩⟩
    · have hp' : s.isPaused = false := by
        cases hc : s.isPaused
        · rfl
        · exact absurd hc hp
      have : startTimer now s = s := by
        simp [startTimer, hr, hp']
      rw [this]
      refine ⟨hset, hsr, hrun, fun hi => ?_⟩
      obtain ⟨a, b, t0, ht0, hle⟩ := hint hi
      exact ⟨a, b, t0, ht0, hle.trans hT⟩
  · have hr' : s.isRunning = false := by
      cases hc : s.isRunning
      · rfl
      · exact absurd hc hr
    rw [startTimer_fresh now s hr']
    have hb := hset.1
    have ht0 : now - (s.settings.bloom - s.settings.bloom) * 1000 ≤ now := by
      simp
    exact ⟨hset, by linarith, fun _ => ⟨s.settings.bloom, rfl, by linarith, le_refl _⟩,
      fun _ => ⟨rfl, rfl, _, rfl, ht0⟩⟩

lemma inv_advance (now T : ℚ) (s : TimerState) (h : EngineInv s T) (_hT : T ≤ now)
    (hi : s.intervalActive = true) : EngineInv (advancePhase now s) now := by
  obtain ⟨hset, hsr, hrun, hint⟩ := h
  obtain ⟨hr, hp, t0, ht0, ht0T⟩ := hint hi
  have hone : 1 ≤ s.settings.get (advancePhase now s).currentPhase :=
    one_le_get s.settings hset _
  refine ⟨hset, ?_, fun _ => ?_, fun _ => ⟨hr, hp, now, rfl, le_refl now⟩⟩
  · show (0:ℚ) ≤ s.settings.get (advancePhase now s).currentPhase
    linarith
  · exact ⟨s.settings.get (advancePhase now s).currentPhase, rfl,
      by linarith, le_refl _⟩

lemma inv_tick (now T : ℚ) (s : TimerState) (h : EngineInv s T) (hT : T ≤ now)
    (hi : s.intervalActive = true) : EngineInv (tick now s) now := by
  obtain ⟨hset, hsr, hrun, hint⟩ := h
  obtain ⟨hr, hp, t0, ht0, ht0T⟩ := hint hi
  obtain ⟨d, hd, hdpos, hsd⟩ := hrun hr
  have hw0 : (0:ℚ) ≤ wallRemaining now s := le_max_left _ _
  have hwd : wallRemaining now s ≤ d := by
    unfold wallRemaining
    rw [hd, ht0]
    simp only [Option.getD_some]
    have he : (0:ℚ) ≤ (now - t0) / 1000 := by
      apply div_nonneg <;> linarith
    exact max_le (le_of_lt hdpos) (by linarith)
  have hinv' : EngineInv { s with secondsRemaining := wallRemaining now s } T :=
    ⟨hset, hw0, fun _ => ⟨d, hd, hdpos, hwd⟩, fun _ => ⟨hr, hp, t0, ht0, ht0T⟩⟩
  have hnp : ¬ (s.isPaused = true) := by simp [hp]
  rw [tick_eq, if_neg hnp]
  by_cases hz : wallRemaining now s ≤ 0
  · rw [if_pos hz]
    exact inv_advance now T _ hinv' hT hi
  · rw [if_neg hz]
    obtain ⟨hset', hsr', hrun', -⟩ := hinv'
    exact ⟨hset', hsr', hrun', fun _ => ⟨hr, hp, t0, ht0, by linarith⟩⟩

lemma inv_pause (s : TimerState) (T : ℚ) (h : EngineInv s T) :
    EngineInv (pauseTimer s) T := by
  obtain ⟨hset, hsr, hrun, hint⟩ := h
  by_cases hc : (!s.isRunning || s.isPaused) = true
  · have : pauseTimer s = s := by simp [pauseTimer, hc]
    rw [this]
    exact ⟨hset, hsr, hrun, hint⟩
  · have : pauseTimer s = { s with isPaused := true, intervalActive := false } := by
      simp only [pauseTimer, hc, if_false, Bool.false_eq_true]
    rw [this]
    exact ⟨hset, hsr, fun hr => hrun hr, fun hi => by simp at hi⟩

lemma inv_stop (s : TimerState) (T : ℚ) (h : EngineInv s T) :
    EngineInv (stopTimer s) T := by
  obtain ⟨hset, hsr, hrun, hint⟩ := h
  refine ⟨hset, ?_, ?_, ?_⟩
  · show (0:ℚ) ≤ s.settings.bloom
    linarith [hset.1]
  · intro hr
    simp [stopTimer] at hr
  · intro hi
    simp [stopTimer] at hi

lemma inv_set (p : Phase) (v : Option ℤ) (s : TimerState) (T : ℚ)
    (h : EngineInv s T) : EngineInv (handleSettingChange p v s) T := by
  obtain ⟨hset, hsr, hrun, hint⟩ := h
  have hnum : (1:ℚ) ≤ clamp (parsedInput v) 1 300 := le_max_left _ _
  have hb := settings_set_bounds s.settings p _ hset hnum
  by_cases hr : s.isRunning = true
  · rw [handleSettingChange_running p v s hr]
    exact ⟨hb, hsr, fun hr' => hrun hr', fun hi' => hint hi'⟩
  · have hr' : s.isRunning = false := by
      cases hc : s.isRunning
      · rfl
      · exact absurd hc hr
    rw [handleSettingChange_idle p v s hr']
    refine ⟨hb, ?_, ?_, ?_⟩
    · show (0:ℚ) ≤ (s.settings.set p (clamp (parsedInput v) 1 300)).get s.currentPhase
      linarith [one_le_get _ hb s.currentPhase]
    · intro hrr
      exact absurd hrr (by simp [hr'])
    · intro hi'
      obtain ⟨hrT, -, -⟩ := hint hi'
      exact absurd hrT (by simp [hr'])

lemma reachable_inv {s : TimerState} {T : ℚ} (h : Reachable s T) :
    EngineInv s T := by
  induction h with
  | init => exact inv_init
  | step_start h hT ih => exact inv_start _ _ _ ih hT
  | step_tick h hT hi ih => exact inv_tick _ _ _ ih hT hi
  | step_advance h hT hi ih => exact inv_advance _ _ _ ih hT hi
  | step_pause h ih => exact inv_pause _ _ ih
  | step_stop h ih => exact inv_stop _ _ ih
  | step_set p v h ih => exact inv_set p v _ _ ih

/-- C6 (amended): in every reachable state, `secondsRemaining` is
non-negative, and whenever the timer is running it is bounded by the
snapshot `phaseDuration`; the bound does not extend to idle states, where
`stopTimer` leaves a stale `phaseDuration` behind. -/
theorem remaining_invariant (s : TimerState) (T : ℚ) (h : Reachable s T) :
    0 ≤ s.secondsRemaining ∧
    (s.isRunning = true →
      ∀ d, s.phaseDuration = some d → s.secondsRemaining ≤ d) := by
  obtain ⟨-, hsr, hrun, -⟩ := reachable_inv h
  refine ⟨hsr, fun hr d hd => ?_⟩
  obtain ⟨d', hd', -, hsd⟩ := hrun hr
  rw [hd] at hd'
  injection hd' with he
  rw [he]
  exact hsd

/-- Witness for C6 (amended) at the initial state. -/
theorem remaining_invariant_witness :
    0 ≤ initState.secondsRemaining ∧
    (initState.isRunning = true →
      ∀ d, initState.phaseDuration = some d → initState.secondsRemaining ≤ d) :=
  remaining_invariant initState 0 Reachable.init

/-- Counterexample to C6 as stated: stopping a default run right after it
advanced into the pour phase reaches an idle state with `secondsRemaining =
40` but `phaseDuration = some 5`, so `secondsRemaining ≤ phaseDuration`
fails in a reachable (idle) state. -/
theorem remaining_invariant_cex :
    Reachable (stopTimer (tick 40000 (startTimer 0 initState))) 40000 ∧
    (stopTimer (tick 40000 (startTimer 0 initState))).phaseDuration = some 5 ∧
    ¬ (stopTimer (tick 40000 (startTimer 0 initState))).secondsRemaining ≤ 5 := by
  refine ⟨Reachable.step_stop (Reachable.step_tick
      (Reachable.step_start Reachable.init le_rfl) (by norm_num)
      (by rw [startTimer_init_eval])), ?_, ?_⟩
  · rw [tick_40000_eval]
    rfl
  · rw [tick_40000_eval]
    norm_num [stopTimer]

lemma runTicks_cons (t : ℚ) (ts : List ℚ) (s : TimerState) :
    runTicks (t :: ts) s = runTicks ts (tick t s) := rfl

lemma wallRemaining_set_sr (now : ℚ) (s : TimerState) (r : ℚ) :
    wallRemaining now { s with secondsRemaining := r } = wallRemaining now s :=
  rfl

lemma tick_noAdvance_frame (t : ℚ) (s : TimerState) (hp : s.isPaused = false)
    (hpos : 0 < max 0 (s.phaseDuration.getD 0 -
      (t - s.phaseStartTime.getD 0) / 1000)) :
    tick t s = { s with secondsRemaining := wallRemaining t s } := by
  have hnp : ¬ (s.isPaused = true) := by simp [hp]
  have hz : ¬ (wallRemaining t s ≤ 0) := not_le.mpr hpos
  rw [tick_eq, if_neg hnp, if_neg hz]

lemma noAdvance_cons (t : ℚ) (ts : List ℚ) (s : TimerState)
    (h : NoAdvance (t :: ts) s) :
    0 < wallRemaining t s ∧ NoAdvance ts (tick t s) := h

lemma runTicks_final (ds : List ℚ) (base : ℚ) (s : TimerState)
    (hp : s.isPaused = false) (hne : ds ≠ [])
    (hna : NoAdvance (tickTimes base ds) s) :
    (runTicks (tickTimes base ds) s).secondsRemaining =
      wallRemaining (base + ds.sum) s := by
  induction ds generalizing base s with
  | nil => exact absurd rfl hne
  | cons d ds ih =>
      rw [show tickTimes base (d :: ds) = (base + d) :: tickTimes (base + d) ds
        from rfl] at hna ⊢
      obtain ⟨hpos, hna'⟩ := noAdvance_cons _ _ _ hna
      have hframe := tick_noAdvance_frame (base + d) s hp hpos
      rw [runTicks_cons, hframe]
      rw [hframe] at hna'
      cases ds with
      | nil =>
          show ({ s with secondsRemaining := wallRemaining (base + d) s } :
            TimerState).secondsRemaining = _
          rw [wallRemaining_set_sr]
          norm_num
      | cons e es =>
          rw [ih (base + d)
              { s with secondsRemaining := wallRemaining (base + d) s } hp
              (by simp) hna',
            wallRemaining_set_sr]
          have harith : base + d + (e :: es).sum = base + (d :: e :: es).sum := by
            simp [List.sum_cons]
            ring
          rw [harith]

/-- C7 (amended): two jitter schedules from the same start instant whose
delays sum to the same total give the same final `secondsRemaining`,
provided neither schedule crosses a phase advance; when an advance is
crossed the claim fails, because `advancePhase` anchors `phaseStartTime`
at the tick that noticed the expiry. -/
theorem jitter_independent_remaining (s : TimerState) (base : ℚ)
    (ds1 ds2 : List ℚ) (hp : s.isPaused = false)
    (hne1 : ds1 ≠ []) (hne2 : ds2 ≠ [])
    (hsum : ds1.sum = ds2.sum)
    (h1 : NoAdvance (tickTimes base ds1) s)
    (h2 : NoAdvance (tickTimes base ds2) s) :
    (runTicks (tickTimes base ds1) s).secondsRemaining =
      (runTicks (tickTimes base ds2) s).secondsRemaining := by
  rw [runTicks_final ds1 base s hp hne1 h1,
    runTicks_final ds2 base s hp hne2 h2, hsum]

/-- Witness for C7 (amended): two ticks after 1s each, versus one tick
after 2s, leave the same remaining time in a fresh default run. -/
theorem jitter_independent_remaining_witness :
    (runTicks (tickTimes 0 [1000, 1000]) (startTimer 0 initState)).secondsRemaining =
      (runTicks (tickTimes 0 [2000]) (startTimer 0 initState)).secondsRemaining :=
  jitter_independent_remaining (startTimer 0 initState) 0 [1000, 1000] [2000]
    (by rw [startTimer_init_eval]) (by simp) (by simp) (by norm_num)
    (by rw [startTimer_init_eval]
        norm_num [NoAdvance, tickTimes, tick, wallRemaining, max_def])
    (by rw [startTimer_init_eval]
        norm_num [NoAdvance, tickTimes, tick, wallRemaining, max_def])

/-- Counterexample to C7 as stated: from the same fresh default run, the
jitter schedules with delays `[40000, 1000]` and `[41000]` have equal total
elapsed time, yet the first ends with 4 seconds remaining and the second
with 5: the tick at 40s fires the bloom-to-pour advance exactly at the
phase boundary, while in the second run the advance is noticed a second
late and the pour phase starts afresh at 41s. -/
theorem jitter_independent_remaining_cex :
    ([40000, 1000] : List ℚ).sum = ([41000] : List ℚ).sum ∧
    (runTicks (tickTimes 0 [40000, 1000])
      (startTimer 0 initState)).secondsRemaining = 4 ∧
    (runTicks (tickTimes 0 [41000])
      (startTimer 0 initState)).secondsRemaining = 5 ∧
    (4 : ℚ) ≠ 5 := by
  refine ⟨by norm_num, ?_, ?_, by norm_num⟩
  · rw [show tickTimes 0 [(40000 : ℚ), 1000] = [(40000 : ℚ), 41000] by
      norm_num [tickTimes]]
    rw [runTicks_cons, show tick (40000 : ℚ) (startTimer 0 initState) =
      tick 40000 (startTimer 0 initState) from rfl, tick_40000_eval]
    norm_num [runTicks, tick, advancePhase, max_def, Settings.get]
  · rw [show tickTimes 0 [(41000 : ℚ)] = [(41000 : ℚ)] by norm_num [tickTimes]]
    rw [startTimer_init_eval]
    norm_num [runTicks, tick, advancePhase, max_def, Settings.get]

/-- C8 (amended): loading recovers locally and totally.  An unparsable or
absent record leaves the defaults `bloom=40, pour=5, wait=10` in place; for
a parsed record, each field goes through the JavaScript-falsy fallback —
only a missing or zero field falls back to its default, a negative field is
instead clamped to 1 — and every loaded value lands in `[1, 300]`. -/
theorem load_settings_recovery (raw : RawSettings) (p : Phase) :
    (loadSettings none initState).settings = initState.settings ∧
    (loadSettings (some raw) initState).settings.get p =
      clamp (orDefault (raw.get p) (defaultFor p)) 1 300 ∧
    ((raw.get p = none ∨ raw.get p = some 0) →
      (loadSettings (some raw) initState).settings.get p = defaultFor p) ∧
    1 ≤ (loadSettings (some raw) initState).settings.get p ∧
    (loadSettings (some raw) initState).settings.get p ≤ 300 := by
  have hchar : (loadSettings (some raw) initState).settings.get p =
      clamp (orDefault (raw.get p) (defaultFor p)) 1 300 := by
    cases p <;> rfl
  refine ⟨rfl, hchar, ?_, ?_, ?_⟩
  · intro h
    rcases h with h | h <;> rw [hchar, h] <;> cases p <;>
      norm_num [orDefault, clamp, defaultFor, max_def, min_def]
  · rw [hchar]
    exact le_max_left 1 _
  · rw [hchar]
    exact max_le (by norm_num) (min_le_left _ _)

/-- Witness for C8 (amended): a record with a missing bloom field loads the
bloom default 40. -/
theorem load_settings_recovery_witness :
    (loadSettings (some { bloom := none, pour := some 3, wait := some 400 })
      initState).settings.get Phase.bloom = defaultFor Phase.bloom :=
  (load_settings_recovery
    { bloom := none, pour := some 3, wait := some 400 } Phase.bloom).2.2.1
    (Or.inl rfl)

/-- Counterexample to C8 as stated: a persisted record with the negative
field `bloom = -5` is non-positive, so the claim predicts the default 40
(clamped: still 40), but the code keeps the truthy `-5` and clamps it to 1. -/
theorem load_settings_recovery_cex :
    (loadSettings (some { bloom := some (-5), pour := some 5, wait := some 10 })
      initState).settings.bloom = 1 ∧
    clamp (defaultFor Phase.bloom) 1 300 = 40 ∧
    (1 : ℚ) ≠ 40 := by
  refine ⟨?_, ?_, by norm_num⟩
  · norm_num [loadSettings, orDefault, clamp, max_def, min_def, initState]
  · norm_num [clamp, defaultFor, max_def, min_def]
